import Mathlib

/-!
Verification of the clone-list validation engine
(`scripts/clone_list_validate.py`) against its design specification.

The Python script is shallowly embedded below.  Pure string manipulation
(`re.sub`, `str.replace`, substring tests) is modelled on `List Char`;
the per-file orchestration of `main` is modelled as a recursion over a
list of per-file inputs, where the outputs of the external libraries
(the JSON parser, the `jsonschema` validator together with the
source-map line resolution and `$comment` lookup, and the `jsonpath_ng`
value extraction) appear as fields of the per-file input record, since
those libraries are external dependencies of the script.  The HTTP
client (`add_comment` / `request_retry`) is modelled as a function of a
script of response status codes, producing the trace of requests,
delays and process exits it performs.
-/

/-- One step of Python `str.replace(old, new)` modelled on character
lists.  `skip` counts characters still to be dropped after a match was
found (the matched occurrence minus its first character).  Scanning is
left to right and non-overlapping, as in CPython.  Only called with
nonempty `old`. -/
def replAux (old new : List Char) : Nat → List Char → List Char
  | k+1, _ :: rest => replAux old new k rest
  | _, [] => []
  | 0, c :: rest =>
    if old.isPrefixOf (c :: rest) then new ++ replAux old new (old.length - 1) rest
    else c :: replAux old new 0 rest

/-- Python `re.sub("\\[[0-9]+\\]", "", s)` from `main`: delete every
bracketed run of one or more digits, scanning left to right.  `skip`
counts the characters of a recognised `[digits]` group still to drop. -/
def stripIdxAux : Nat → List Char → List Char
  | k+1, _ :: rest => stripIdxAux k rest
  | _, [] => []
  | 0, c :: rest =>
    if c = '[' then
      match rest.takeWhile Char.isDigit, rest.dropWhile Char.isDigit with
      | _ :: _, ']' :: _ => stripIdxAux ((rest.takeWhile Char.isDigit).length + 1) rest
      | _, _ => c :: stripIdxAux 0 rest
    else c :: stripIdxAux 0 rest

/-- Python's substring test `sub in s` on character lists. -/
def containsSubList (sub : List Char) : List Char → Bool
  | [] => sub.isEmpty
  | l@(_ :: rest) => sub.isPrefixOf l || containsSubList sub rest

/-- Python `sub in s` on strings. -/
def containsSub (s sub : String) : Bool := containsSubList sub.data s.data

/-- Python `s.replace(old, new)` on strings (all occurrences). -/
def replaceAll (old new s : String) : String :=
  String.mk (replAux old.data new.data 0 s.data)

/-- The parent `$comment` lookup path computed by `main` (lines
303-312 of `clone_list_validate.py`): strip `[idx]` array accesses from
`error.json_path`, double every `.` separator, append `["$comment"]`,
and, when the result contains `$..variants..titles..filters..`, delete
every occurrence of `..variants..titles`. -/
def parentLookupPathList (l : List Char) : List Char :=
  let b := replAux ['.'] ['.', '.'] 0 (stripIdxAux 0 l) ++ "[\"$comment\"]".data
  if containsSubList "$..variants..titles..filters..".data b then
    replAux "..variants..titles".data [] 0 b
  else b

/-- String-level wrapper of `parentLookupPathList`. -/
def parentLookupPath (s : String) : String := String.mk (parentLookupPathList s.data)

/-- Modelled from the spec: claim C9 describes the special case as
eliding exactly the `titles` segment from the lookup path.  This
definition follows those words: the same pipeline as
`parentLookupPathList`, except that only `..titles` is deleted. -/
def titlesOnlyPath (l : List Char) : List Char :=
  let b := replAux ['.'] ['.', '.'] 0 (stripIdxAux 0 l) ++ "[\"$comment\"]".data
  if containsSubList "$..variants..titles..filters..".data b then
    replAux "..titles".data [] 0 b
  else b

theorem stripIdxAux_alpha (l : List Char) (h : ∀ c ∈ l, c.isAlpha = true) :
    stripIdxAux 0 l = l := by
  induction l with
  | nil => rfl
  | cons c rest ih =>
    have hc : c.isAlpha = true := h c (List.mem_cons_self c rest)
    have hne : ¬ (c = '[') := by
      intro hEq
      rw [hEq] at hc
      exact absurd hc (by decide)
    rw [stripIdxAux, if_neg hne, ih (fun d hd => h d (List.mem_cons_of_mem c hd))]

theorem replAux_dot_alpha (ps new : List Char) (l t : List Char)
    (h : ∀ c ∈ l, c.isAlpha = true) :
    replAux ('.' :: ps) new 0 (l ++ t) = l ++ replAux ('.' :: ps) new 0 t := by
  induction l with
  | nil => rfl
  | cons c rest ih =>
    have hc : c.isAlpha = true := h c (List.mem_cons_self c rest)
    have hne : (('.' : Char) == c) = false := by
      apply beq_eq_false_iff_ne.mpr
      intro hEq
      rw [← hEq] at hc
      exact absurd hc (by decide)
    have hpre : ('.' :: ps).isPrefixOf (c :: (rest ++ t)) = false := by
      simp [List.isPrefixOf, hne]
    rw [List.cons_append, replAux, if_neg (by simp [hpre])]
    rw [ih (fun d hd => h d (List.mem_cons_of_mem c hd))]
    simp

theorem replAux_dot_alpha_id (ps new : List Char) (l : List Char)
    (h : ∀ c ∈ l, c.isAlpha = true) :
    replAux ('.' :: ps) new 0 l = l := by
  have h2 := replAux_dot_alpha ps new l [] h
  have h3 : replAux ('.' :: ps) new 0 ([] : List Char) = [] := rfl
  rw [h3] at h2
  simpa using h2

theorem isPrefixOf_append_self (l t : List Char) : l.isPrefixOf (l ++ t) = true := by
  induction l with
  | nil => simp [List.isPrefixOf]
  | cons c cs ih => simp [List.isPrefixOf, ih]

theorem containsSubList_of_isPrefixOf (sub l : List Char) (h : sub.isPrefixOf l = true) :
    containsSubList sub l = true := by
  cases l with
  | nil =>
    cases sub with
    | nil => rfl
    | cons a as => simp [List.isPrefixOf] at h
  | cons c r => rw [containsSubList, h, Bool.true_or]

theorem replAux_no_match (old new : List Char) (c : Char) (l : List Char)
    (h : old.isPrefixOf (c :: l) = false) :
    replAux old new 0 (c :: l) = c :: replAux old new 0 l := by
  show (if old.isPrefixOf (c :: l) = true then new ++ replAux old new (old.length - 1) l
        else c :: replAux old new 0 l) = c :: replAux old new 0 l
  rw [h]
  simp

/-- C9, counterexample.  The claim states that when the error path
traverses `variants → titles → filters`, exactly the `titles` segment
is elided from the parent-lookup path.  On the concrete error path
`$.variants[0].titles[1].filters.matchLanguages` the code instead
removes the whole `..variants..titles` substring, eliding the
`variants` segment as well: it produces
`$..filters..matchLanguages["$comment"]`, while the titles-only elision
described by the claim would produce
`$..variants..filters..matchLanguages["$comment"]`. -/
theorem c9_parent_lookup_counterexample :
    parentLookupPath "$.variants[0].titles[1].filters.matchLanguages" =
      "$..filters..matchLanguages[\"$comment\"]"
    ∧ String.mk (titlesOnlyPath "$.variants[0].titles[1].filters.matchLanguages".data) =
      "$..variants..filters..matchLanguages[\"$comment\"]"
    ∧ parentLookupPath "$.variants[0].titles[1].filters.matchLanguages" ≠
      String.mk (titlesOnlyPath "$.variants[0].titles[1].filters.matchLanguages".data) :=
  ⟨rfl, rfl, by decide⟩

/-- C9, amended.  The parent-lookup path is obtained from the error's
own path by stripping array indices, doubling the `.` separators into
descendant-search separators, and appending `["$comment"]`; and when
the resulting path contains `$..variants..titles..filters..` (i.e. it
traverses variants → titles → filters and continues past filters), the
whole contiguous `..variants..titles` substring is removed, eliding
both the `variants` and the `titles` segments.  Stated here for every
error path of the shape `$.variants[0].titles[2].filters.<name>` where
`<name>` is a nonempty alphabetic field name not starting with `v`. -/
theorem c9_parent_lookup_amended (c0 : Char) (rest : List Char)
    (h1 : c0.isAlpha = true) (h2 : c0 ≠ 'v')
    (h3 : ∀ c ∈ rest, c.isAlpha = true) :
    parentLookupPathList ("$.variants[0].titles[2].filters.".data ++ (c0 :: rest)) =
      "$..filters..".data ++ ((c0 :: rest) ++ "[\"$comment\"]".data) := by
  have halpha : ∀ c ∈ (c0 :: rest), c.isAlpha = true := by
    intro c hc
    rcases List.mem_cons.mp hc with h | h
    · rw [h]; exact h1
    · exact h3 c h
  have hA : stripIdxAux 0 ("$.variants[0].titles[2].filters.".data ++ (c0 :: rest)) =
      "$.variants.titles.filters.".data ++ (c0 :: rest) := by
    have e : stripIdxAux 0 ("$.variants[0].titles[2].filters.".data ++ (c0 :: rest)) =
        "$.variants.titles.filters.".data ++ stripIdxAux 0 (c0 :: rest) := rfl
    rw [e, stripIdxAux_alpha _ halpha]
  have hB : replAux ['.'] ['.', '.'] 0 ("$.variants.titles.filters.".data ++ (c0 :: rest)) =
      "$..variants..titles..filters..".data ++ (c0 :: rest) := by
    have e : replAux ['.'] ['.', '.'] 0 ("$.variants.titles.filters.".data ++ (c0 :: rest)) =
        "$..variants..titles..filters..".data ++ replAux ['.'] ['.', '.'] 0 (c0 :: rest) := rfl
    rw [e, replAux_dot_alpha_id _ _ _ halpha]
  have hC : containsSubList "$..variants..titles..filters..".data
      ("$..variants..titles..filters..".data ++ ((c0 :: rest) ++ "[\"$comment\"]".data)) = true :=
    containsSubList_of_isPrefixOf _ _ (isPrefixOf_append_self _ _)
  have hv : (('v' : Char) == c0) = false := beq_eq_false_iff_ne.mpr (Ne.symm h2)
  have hdot : (('.' : Char) == c0) = false := by
    apply beq_eq_false_iff_ne.mpr
    intro hEq
    rw [← hEq] at h1
    exact absurd h1 (by decide)
  have hm1 : ("..variants..titles".data).isPrefixOf
      ('.' :: '.' :: ((c0 :: rest) ++ "[\"$comment\"]".data)) = false := by
    simp [List.isPrefixOf, hv]
  have hm2 : ("..variants..titles".data).isPrefixOf
      ('.' :: ((c0 :: rest) ++ "[\"$comment\"]".data)) = false := by
    simp [List.isPrefixOf, hdot]
  have hd2c : replAux "..variants..titles".data [] 0 ((c0 :: rest) ++ "[\"$comment\"]".data) =
      (c0 :: rest) ++ replAux "..variants..titles".data [] 0 ("[\"$comment\"]".data) :=
    replAux_dot_alpha _ _ _ _ halpha
  have hlit : replAux "..variants..titles".data [] 0 ("[\"$comment\"]".data) =
      "[\"$comment\"]".data := rfl
  have e : replAux "..variants..titles".data [] 0
      ("$..variants..titles..filters..".data ++ ((c0 :: rest) ++ "[\"$comment\"]".data)) =
      "$..filters".data ++ replAux "..variants..titles".data [] 0
        ('.' :: '.' :: ((c0 :: rest) ++ "[\"$comment\"]".data)) := rfl
  have hD : replAux "..variants..titles".data [] 0
      ("$..variants..titles..filters..".data ++ ((c0 :: rest) ++ "[\"$comment\"]".data)) =
      "$..filters..".data ++ ((c0 :: rest) ++ "[\"$comment\"]".data) := by
    rw [e, replAux_no_match _ _ _ _ hm1, replAux_no_match _ _ _ _ hm2, hd2c, hlit]
    simp
  simp only [parentLookupPathList]
  rw [hA, hB, List.append_assoc, hC]
  simp only [if_true]
  exact hD

/-- Witness for C9's amended theorem at the concrete field name
`matchLanguages`. -/
theorem c9_parent_lookup_amended_witness :
    parentLookupPathList ("$.variants[0].titles[2].filters.".data ++ ('m' :: "atchLanguages".data)) =
      "$..filters..".data ++ (('m' :: "atchLanguages".data) ++ "[\"$comment\"]".data) :=
  c9_parent_lookup_amended 'm' "atchLanguages".data (by decide) (by decide) (by decide)

/-- The seen/dupes loop of `main` (lines 413-417 and 472-476): walk the
extracted values, a value already seen goes into the duplicate
collection.  Python uses sets; here `seen` and `dupes` are
duplicate-free lists in first-insertion order, with `set.add` on an
already-present element modelled as a no-op. -/
def dupesGo : List String → List String → List String → List String
  | [], _, dupes => dupes
  | v :: rest, seen, dupes =>
    if v ∈ seen then
      if v ∈ dupes then dupesGo rest seen dupes else dupesGo rest seen (dupes ++ [v])
    else dupesGo rest (seen ++ [v]) dupes

/-- Duplicated values among the extracted `searchTerm` (or `group`)
values, as computed by `main`. -/
def dupesOf (values : List String) : List String := dupesGo values [] []

/-- The literal substring `main` scans each raw line for when looking
for a duplicated searchTerm (line 423): `{"searchTerm": "<value>"`. -/
def searchTermLiteral (v : String) : String := "\x7b\"searchTerm\": \"" ++ v ++ "\""

/-- The literal substring `main` scans each raw line for when looking
for a duplicated group (line 482): `"group": "<value>"`. -/
def groupLiteral (v : String) : String := "\"group\": \"" ++ v ++ "\""

/-- First-match lookup in an association list (a Python dict with
unique keys, in insertion order). -/
def alookup {κ : Type} {α : Type} [DecidableEq κ] (k : κ) : List (κ × α) → Option α
  | [] => none
  | (k2, v) :: rest => if k2 = k then some v else alookup k rest

/-- Update the value stored under a key of an association list. -/
def aupdate {κ : Type} {α : Type} [DecidableEq κ] (k : κ) (f : α → α) :
    List (κ × α) → List (κ × α)
  | [] => []
  | (k2, v) :: rest => if k2 = k then (k2, f v) :: rest else (k2, v) :: aupdate k f rest

/-- Record one matching line number for a duplicated value, creating
the dict entry on first use (lines 424-427 / 483-486). -/
def addHit (acc : List (String × List Nat)) (d : String) (i : Nat) :
    List (String × List Nat) :=
  match alookup d acc with
  | none => acc ++ [(d, [i])]
  | some _ => aupdate d (fun ns => ns ++ [i]) acc

/-- Inner loop of the textual scan: test one raw line against every
duplicated value (lines 422-427 / 481-486). -/
def scanOneLine (dupes : List String) (mk : String → String) (i : Nat) (line : String)
    (acc : List (String × List Nat)) : List (String × List Nat) :=
  dupes.foldl (fun a d => if containsSub line (mk d) then addHit a d i else a) acc

/-- Outer loop of the textual scan over the raw lines, with 1-based
line numbers (`enumerate(..., start=1)`). -/
def lineScanGo (dupes : List String) (mk : String → String) :
    Nat → List String → List (String × List Nat) → List (String × List Nat)
  | _, [], acc => acc
  | i, l :: rest, acc => lineScanGo dupes mk (i+1) rest (scanOneLine dupes mk i l acc)

/-- The `searchterm_dupes` / `group_dupes` dict computed by `main`:
for each duplicated value, the 1-based numbers of the raw lines that
contain its expected literal form. -/
def lineScan (dupes : List String) (mk : String → String) (lines : List String) :
    List (String × List Nat) :=
  lineScanGo dupes mk 1 lines []

/-- The 1-based numbers of the lines containing a given literal,
starting the count at `k`.  Used to state which lines of the raw text
match; the code computes the same numbers inside its scan. -/
def collectMatches (lit : String) : Nat → List String → List Nat
  | _, [] => []
  | k, l :: rest =>
    if containsSub l lit then k :: collectMatches lit (k+1) rest
    else collectMatches lit (k+1) rest

theorem dupesGo_done (vs : List String) : ∀ (seen dupes : List String),
    (∀ d ∈ dupes, d ∈ seen) →
    (∀ w ∈ vs, w ∈ dupes ∨ (w ∉ seen ∧ vs.count w ≤ 1)) →
    dupesGo vs seen dupes = dupes := by
  induction vs with
  | nil => intro seen dupes _ _; rfl
  | cons w rest ih =>
    intro seen dupes h1 h2
    have hcount : ∀ w' ∈ rest, rest.count w' ≤ (w :: rest).count w' := by
      intro w' _
      rw [List.count_cons]
      split <;> omega
    rcases h2 w (List.mem_cons_self w rest) with hw | ⟨hw1, hw2⟩
    · rw [dupesGo, if_pos (h1 w hw), if_pos hw]
      apply ih seen dupes h1
      intro w' hw'
      rcases h2 w' (List.mem_cons_of_mem w hw') with h | ⟨ha, hb⟩
      · exact Or.inl h
      · exact Or.inr ⟨ha, le_trans (hcount w' hw') hb⟩
    · have hwrest : w ∉ rest := by
        rw [List.count_cons_self] at hw2
        exact List.count_eq_zero.mp (by omega)
      rw [dupesGo, if_neg hw1]
      apply ih (seen ++ [w]) dupes
      · intro d hd
        exact List.mem_append_left _ (h1 d hd)
      · intro w' hw'
        rcases h2 w' (List.mem_cons_of_mem w hw') with h | ⟨ha, hb⟩
        · exact Or.inl h
        · refine Or.inr ⟨?_, le_trans (hcount w' hw') hb⟩
          intro hmem
          rcases List.mem_append.mp hmem with h | h
          · exact ha h
          · rw [List.mem_singleton] at h
            rw [h] at hw'
            exact hwrest hw'

theorem dupesGo_mid (v : String) (vs : List String) : ∀ (seen : List String),
    v ∈ seen → vs.count v = 1 →
    (∀ w ∈ vs, w = v ∨ (w ∉ seen ∧ vs.count w ≤ 1)) →
    dupesGo vs seen [] = [v] := by
  induction vs with
  | nil => intro seen _ hc _; simp at hc
  | cons w rest ih =>
    intro seen hseen hcount h
    have hcle : ∀ w' ∈ rest, rest.count w' ≤ (w :: rest).count w' := by
      intro w' _
      rw [List.count_cons]
      split <;> omega
    by_cases hwv : w = v
    · subst hwv
      rw [dupesGo, if_pos hseen, if_neg (List.not_mem_nil w), List.nil_append]
      apply dupesGo_done
      · intro d hd
        rw [List.mem_singleton] at hd
        rw [hd]
        exact hseen
      · intro w' hw'
        rcases h w' (List.mem_cons_of_mem w hw') with h' | ⟨ha, hb⟩
        · rw [h']
          exact Or.inl (List.mem_singleton_self w)
        · exact Or.inr ⟨ha, le_trans (hcle w' hw') hb⟩
    · rcases h w (List.mem_cons_self w rest) with h' | ⟨ha, hb⟩
      · exact absurd h' hwv
      · have hwrest : w ∉ rest := by
          rw [List.count_cons_self] at hb
          exact List.count_eq_zero.mp (by omega)
        rw [dupesGo, if_neg ha]
        apply ih (seen ++ [w]) (List.mem_append_left _ hseen)
        · rw [List.count_cons_of_ne (fun hEq => hwv hEq.symm)] at hcount
          exact hcount
        · intro w' hw'
          rcases h w' (List.mem_cons_of_mem w hw') with h' | ⟨hc, hd⟩
          · exact Or.inl h'
          · refine Or.inr ⟨?_, le_trans (hcle w' hw') hd⟩
            intro hmem
            rcases List.mem_append.mp hmem with hm | hm
            · exact hc hm
            · rw [List.mem_singleton] at hm
              rw [hm] at hw'
              exact hwrest hw'

theorem dupesGo_start (v : String) (vs : List String) : ∀ (seen : List String),
    v ∉ seen → vs.count v = 2 →
    (∀ w ∈ vs, w = v ∨ (w ∉ seen ∧ vs.count w ≤ 1)) →
    dupesGo vs seen [] = [v] := by
  induction vs with
  | nil => intro seen _ hc _; simp at hc
  | cons w rest ih =>
    intro seen hseen hcount h
    have hcle : ∀ w' ∈ rest, rest.count w' ≤ (w :: rest).count w' := by
      intro w' _
      rw [List.count_cons]
      split <;> omega
    by_cases hwv : w = v
    · subst hwv
      rw [dupesGo, if_neg hseen]
      apply dupesGo_mid w rest (seen ++ [w]) (List.mem_append_right _ (List.mem_singleton_self w))
      · rw [List.count_cons_self] at hcount
        omega
      · intro w' hw'
        rcases h w' (List.mem_cons_of_mem w hw') with h' | ⟨ha, hb⟩
        · exact Or.inl h'
        · refine Or.inr ⟨?_, le_trans (hcle w' hw') hb⟩
          intro hmem
          rcases List.mem_append.mp hmem with hm | hm
          · exact ha hm
          · rw [List.mem_singleton] at hm
            exact absurd hm (by
              intro hEq
              rw [hEq] at hb
              rw [List.count_cons_self] at hb hcount
              omega)
    · rcases h w (List.mem_cons_self w rest) with h' | ⟨ha, hb⟩
      · exact absurd h' hwv
      · have hwrest : w ∉ rest := by
          rw [List.count_cons_self] at hb
          exact List.count_eq_zero.mp (by omega)
        rw [dupesGo, if_neg ha]
        apply ih (seen ++ [w])
        · intro hmem
          rcases List.mem_append.mp hmem with hm | hm
          · exact hseen hm
          · rw [List.mem_singleton] at hm
            exact hwv hm.symm
        · rw [List.count_cons_of_ne (fun hEq => hwv hEq.symm)] at hcount
          exact hcount
        · intro w' hw'
          rcases h w' (List.mem_cons_of_mem w hw') with h' | ⟨hc, hd⟩
          · exact Or.inl h'
          · refine Or.inr ⟨?_, le_trans (hcle w' hw') hd⟩
            intro hmem
            rcases List.mem_append.mp hmem with hm | hm
            · exact hc hm
            · rw [List.mem_singleton] at hm
              rw [hm] at hw'
              exact hwrest hw'

theorem lineScanGo_single (v : String) (mk : String → String) (ls : List String) :
    ∀ (k : Nat) (ns : List Nat),
    lineScanGo [v] mk k ls [(v, ns)] = [(v, ns ++ collectMatches (mk v) k ls)] := by
  induction ls with
  | nil => intro k ns; simp [lineScanGo, collectMatches]
  | cons l rest ih =>
    intro k ns
    rw [lineScanGo]
    by_cases hc : containsSub l (mk v) = true
    · have hs : scanOneLine [v] mk k l [(v, ns)] = [(v, ns ++ [k])] := by
        simp [scanOneLine, hc, addHit, alookup, aupdate]
      rw [hs, ih, collectMatches, if_pos hc]
      simp
    · have hs : scanOneLine [v] mk k l [(v, ns)] = [(v, ns)] := by
        simp [scanOneLine, hc]
      rw [hs, ih, collectMatches, if_neg hc]

theorem lineScanGo_single_nil (v : String) (mk : String → String) (ls : List String) :
    ∀ (k : Nat),
    lineScanGo [v] mk k ls [] =
      if collectMatches (mk v) k ls = [] then [] else [(v, collectMatches (mk v) k ls)] := by
  induction ls with
  | nil => intro k; simp [lineScanGo, collectMatches]
  | cons l rest ih =>
    intro k
    rw [lineScanGo]
    by_cases hc : containsSub l (mk v) = true
    · have hs : scanOneLine [v] mk k l [] = [(v, [k])] := by
        simp [scanOneLine, hc, addHit, alookup]
      rw [hs, lineScanGo_single, collectMatches, if_pos hc]
      simp
    · have hs : scanOneLine [v] mk k l [] = [] := by
        simp [scanOneLine, hc]
      rw [hs, ih, collectMatches, if_neg hc]

theorem collectMatches_lb (lit : String) (ls : List String) :
    ∀ (k : Nat), ∀ x ∈ collectMatches lit k ls, k ≤ x := by
  induction ls with
  | nil => intro k x hx; simp [collectMatches] at hx
  | cons l rest ih =>
    intro k x hx
    rw [collectMatches] at hx
    by_cases hc : containsSub l lit = true
    · rw [if_pos hc] at hx
      rcases List.mem_cons.mp hx with h | h
      · omega
      · have := ih (k+1) x h
        omega
    · rw [if_neg hc] at hx
      have := ih (k+1) x hx
      omega

theorem collectMatches_sorted (lit : String) (ls : List String) :
    ∀ (k : Nat), List.Chain' (· < ·) (collectMatches lit k ls) := by
  induction ls with
  | nil => intro k; simp [collectMatches]
  | cons l rest ih =>
    intro k
    rw [collectMatches]
    by_cases hc : containsSub l lit = true
    · rw [if_pos hc]
      apply List.chain'_cons'.mpr
      refine ⟨?_, ih (k+1)⟩
      intro y hy
      have hmem : y ∈ collectMatches lit (k+1) rest := List.mem_of_mem_head? hy
      have := collectMatches_lb lit rest (k+1) y hmem
      omega
    · rw [if_neg hc]
      exact ih (k+1)

/-- C8: for a document whose extracted `$..titles..searchTerm` values
contain a value `v` exactly twice (two distinct title entries, under
the same or different groups) and no other value more than once, and
whose raw text has exactly two lines containing the literal
`{"searchTerm": "<v>"` (at line numbers `i` and `j`), duplicate
detection yields exactly one duplicate group, keyed `v`, whose line
list is exactly `[i, j]` in ascending order. -/
theorem c8_duplicate_group (v : String) (values : List String) (lines : List String)
    (i j : Nat)
    (h1 : values.count v = 2)
    (h2 : ∀ w ∈ values, w = v ∨ values.count w ≤ 1)
    (h3 : collectMatches (searchTermLiteral v) 1 lines = [i, j]) :
    lineScan (dupesOf values) searchTermLiteral lines = [(v, [i, j])] ∧ i < j := by
  have hd : dupesOf values = [v] := by
    apply dupesGo_start v values [] (List.not_mem_nil v) h1
    intro w hw
    rcases h2 w hw with h | h
    · exact Or.inl h
    · exact Or.inr ⟨List.not_mem_nil w, h⟩
  constructor
  · rw [hd, lineScan, lineScanGo_single_nil, h3]
    simp
  · have hch := collectMatches_sorted (searchTermLiteral v) lines 1
    rw [h3] at hch
    exact (List.chain'_cons.mp hch).1

/-- Witness for C8 on a concrete document: `Foo` occurs twice among
the extracted searchTerm values and on raw lines 1 and 3. -/
theorem c8_duplicate_group_witness :
    lineScan (dupesOf ["Foo", "Bar", "Foo"]) searchTermLiteral
      ["\x7b\"searchTerm\": \"Foo\"\x7d,", "zzz", "\x7b\"searchTerm\": \"Foo\"\x7d"] =
      [("Foo", [1, 3])] ∧ (1 : Nat) < 3 :=
  c8_duplicate_group "Foo" ["Foo", "Bar", "Foo"]
    ["\x7b\"searchTerm\": \"Foo\"\x7d,", "zzz", "\x7b\"searchTerm\": \"Foo\"\x7d"] 1 3
    (by decide) (by decide) (by decide)

/-- One raw schema-validation error, as seen by the merging code of
`main`: its resolved 1-based source line (`error_line`, from the source
map), its resolved human-readable comment (from `$comment` / the
parent lookup), its enrichment triggers, and its raw validator message
(`error.message`).  `localNames` is `some l` exactly when
`'localNames' in error.json_path` and the schema lookup at
`$..languages..properties` produced the nonempty joined key list `l`
(lines 345-353); `regionNames` is `some r` exactly when the path
mentions `matchRegions`/`higherRegions`/`lowerRegions` and the lookup
at `$..regions..enum` produced the nonempty joined list `r` (lines
361-370). -/
structure RawErr where
  line : Nat
  comment : String
  localNames : Option String
  regionNames : Option String
  message : String
deriving DecidableEq

/-- One value of the `error_messages` dict of `main`: the merged
comment and the accumulated raw error messages for one line. -/
structure Entry where
  comment : String
  errors : List String
deriving DecidableEq

/-- The language appendix the code adds to the stored comment when an
error triggers the `localNames` enrichment (line 357). -/
def langNote (l : String) : String :=
  "\n\nThe valid languages are as follows:\n\n`" ++ l ++ "`"

/-- The region appendix the code adds to the stored comment when an
error triggers the region enrichment (line 375). -/
def regionNote (r : String) : String :=
  "\n\nThe valid regions are as follows:\n\n`" ++ r ++ "`"

/-- The enrichment of lines 345-375: after the merge step, the
language appendix and then the region appendix are added to the
accumulated `error_messages[error_line]['comment']` when the error
triggers them. -/
def enrich (e : RawErr) (c : String) : String :=
  let c1 := match e.localNames with
    | some l => c ++ langNote l
    | none => c
  match e.regionNames with
  | some r => c1 ++ regionNote r
  | none => c1

/-- Merge one raw error into the `error_messages` accumulator (lines
330-381 of `clone_list_validate.py`): create the entry on first use of
the line; otherwise append the comment after a blank line when it
differs from the stored (possibly already enriched) one; then apply
the language/region enrichment of lines 345-375 to the stored comment,
and always append the raw message (lines 377-381). -/
def addErr (acc : List (Nat × Entry)) (e : RawErr) : List (Nat × Entry) :=
  match alookup e.line acc with
  | none => acc ++ [(e.line, ⟨enrich e e.comment, [e.message]⟩)]
  | some _ =>
    aupdate e.line
      (fun ent =>
        ⟨enrich e (if ent.comment = e.comment then ent.comment
          else ent.comment ++ "\n\n" ++ e.comment),
         ent.errors ++ [e.message]⟩) acc

/-- The `error_messages` dict built by the schema-validation loop of
`main`, keyed by line in insertion order. -/
def buildErrorMessages (errs : List RawErr) : List (Nat × Entry) :=
  errs.foldl addErr []

/-- The raw error messages accumulated for a line ([] when the line
has no entry). -/
def messagesAt (line : Nat) (em : List (Nat × Entry)) : List String :=
  match alookup line em with
  | some e => e.errors
  | none => []


theorem alookup_append_of_none {α : Type} (line k : Nat) (v : α) :
    ∀ (acc : List (Nat × α)), alookup line acc = none →
    alookup line (acc ++ [(k, v)]) = if k = line then some v else none := by
  intro acc
  induction acc with
  | nil => intro _; simp [alookup]
  | cons p rest ih =>
    obtain ⟨k2, v2⟩ := p
    intro h
    rw [alookup] at h
    by_cases h2 : k2 = line
    · rw [if_pos h2] at h
      exact absurd h (by simp)
    · rw [if_neg h2] at h
      rw [List.cons_append, alookup, if_neg h2]
      exact ih h

theorem alookup_append_of_some {α : Type} (line k : Nat) (v w : α) :
    ∀ (acc : List (Nat × α)), alookup line acc = some w →
    alookup line (acc ++ [(k, v)]) = some w := by
  intro acc
  induction acc with
  | nil => intro h; simp [alookup] at h
  | cons p rest ih =>
    obtain ⟨k2, v2⟩ := p
    intro h
    rw [alookup] at h
    by_cases h2 : k2 = line
    · rw [if_pos h2] at h
      rw [List.cons_append, alookup, if_pos h2]
      exact h
    · rw [if_neg h2] at h
      rw [List.cons_append, alookup, if_neg h2]
      exact ih h

theorem alookup_aupdate {α : Type} (line k : Nat) (f : α → α) :
    ∀ (acc : List (Nat × α)),
    alookup line (aupdate k f acc) =
      if k = line then (alookup line acc).map f else alookup line acc := by
  intro acc
  induction acc with
  | nil => simp [alookup, aupdate]
  | cons p rest ih =>
    obtain ⟨k2, v2⟩ := p
    rw [aupdate]
    by_cases h1 : k2 = k
    · by_cases h2 : k2 = line
      · rw [if_pos h1, alookup, if_pos h2, alookup, if_pos h2, if_pos (h1 ▸ h2)]
        simp
      · rw [if_pos h1, alookup, if_neg h2, alookup, if_neg h2]
        by_cases h3 : k = line
        · exact absurd (h1.trans h3) h2
        · rw [if_neg h3]
    · by_cases h2 : k2 = line
      · rw [if_neg h1, alookup, if_pos h2, alookup, if_pos h2]
        by_cases h3 : k = line
        · exact absurd (h3.trans h2.symm).symm h1
        · rw [if_neg h3]
      · rw [if_neg h1, alookup, if_neg h2, alookup, if_neg h2]
        exact ih

theorem messagesAt_addErr (L : Nat) (acc : List (Nat × Entry)) (e : RawErr) :
    messagesAt L (addErr acc e) =
      messagesAt L acc ++ (if e.line = L then [e.message] else []) := by
  cases hl : alookup e.line acc with
  | none =>
    simp only [addErr, hl]
    by_cases h : e.line = L
    · subst h
      rw [messagesAt, alookup_append_of_none _ _ _ _ hl, if_pos rfl]
      rw [messagesAt, hl]
      simp
    · cases hL : alookup L acc with
      | none =>
        rw [messagesAt, alookup_append_of_none _ _ _ _ hL, if_neg h]
        rw [messagesAt, hL]
        simp [h]
      | some w =>
        rw [messagesAt, alookup_append_of_some _ _ _ _ _ hL]
        rw [messagesAt, hL]
        simp [h]
  | some w =>
    simp only [addErr, hl]
    rw [messagesAt, alookup_aupdate]
    by_cases h : e.line = L
    · subst h
      rw [if_pos rfl, hl]
      rw [messagesAt, hl]
      simp
    · rw [if_neg h, messagesAt]
      simp [h]

theorem messagesAt_build_aux (errs : List RawErr) : ∀ (acc : List (Nat × Entry)) (L : Nat),
    messagesAt L (List.foldl addErr acc errs) =
      messagesAt L acc ++ (errs.filter (fun e => e.line == L)).map (fun e => e.message) := by
  induction errs with
  | nil => intro acc L; simp
  | cons e rest ih =>
    intro acc L
    rw [List.foldl_cons, ih, messagesAt_addErr]
    by_cases h : e.line = L
    · simp [List.filter_cons, h]
    · simp [List.filter_cons, h]

/-- C7, counterexample.  The claim states that two raw validation
errors resolving to the same line whose resolved comments are
textually identical contribute the comment only once.  When an error
triggers the language enrichment (lines 345-357), the appendix is
added to the *accumulated* comment after the merge, so the next
error's merge comparison (line 338) runs against the enriched stored
text and never matches the raw comment: two identical same-line
errors whose resolved comment is `Provide a language.` with language
appendix `en, ja` produce that identical resolved text twice,
separated by a blank line, refuting the identical-comment arm of the
claim. -/
theorem c7_merge_rule_counterexample :
    buildErrorMessages
      [⟨3, "Provide a language.", some "en, ja", none, "m1"⟩,
       ⟨3, "Provide a language.", some "en, ja", none, "m2"⟩] =
      [(3, ⟨("Provide a language." ++ langNote "en, ja") ++ "\n\n" ++
            ("Provide a language." ++ langNote "en, ja"), ["m1", "m2"]⟩)]
    ∧ ("Provide a language." ++ langNote "en, ja") ++ "\n\n" ++
        ("Provide a language." ++ langNote "en, ja") ≠
      "Provide a language." ++ langNote "en, ja" :=
  ⟨rfl, by decide⟩

/-- C7, amended.  For two raw validation errors resolving to the same
source line and triggering no enrichment, the merged comment is the
two resolved comments separated by a blank line when they are
textually distinct, and the single comment when they are identical.
When the errors trigger the language enrichment, the appendix is added
to the accumulated comment between the merges, so the comparison runs
against the enriched stored text and a textually identical resolved
comment is duplicated: the result is the enriched comment, a blank
line, the repeated comment, and the appendix again — i.e. the
identical enriched resolved comment twice, separated by a blank line.
In every case the raw error messages recorded for a line are exactly
the messages of the errors resolving to that line, in traversal
order, none dropped. -/
theorem c7_merge_rule :
    (∀ (L : Nat) (c1 m1 c2 m2 : String), c1 ≠ c2 →
      buildErrorMessages [⟨L, c1, none, none, m1⟩, ⟨L, c2, none, none, m2⟩] =
        [(L, ⟨c1 ++ "\n\n" ++ c2, [m1, m2]⟩)])
    ∧ (∀ (L : Nat) (c m1 m2 : String),
      buildErrorMessages [⟨L, c, none, none, m1⟩, ⟨L, c, none, none, m2⟩] =
        [(L, ⟨c, [m1, m2]⟩)])
    ∧ (∀ (L : Nat) (c l m1 m2 : String),
      buildErrorMessages [⟨L, c, some l, none, m1⟩, ⟨L, c, some l, none, m2⟩] =
        [(L, ⟨(c ++ langNote l) ++ "\n\n" ++ c ++ langNote l, [m1, m2]⟩)])
    ∧ (∀ (errs : List RawErr) (L : Nat),
      messagesAt L (buildErrorMessages errs) =
        (errs.filter (fun e => e.line == L)).map (fun e => e.message)) := by
  refine ⟨?_, ?_, ?_, ?_⟩
  · intro L c1 m1 c2 m2 h
    simp [buildErrorMessages, addErr, alookup, aupdate, enrich, h]
  · intro L c m1 m2
    simp [buildErrorMessages, addErr, alookup, aupdate, enrich]
  · intro L c l m1 m2
    have hne : ¬ (c ++ langNote l = c) := by
      intro hEq
      have hlen := congrArg String.length hEq
      rw [String.length_append] at hlen
      have hpos : 0 < (langNote l).length := by
        rw [langNote, String.length_append, String.length_append]
        have hlit : 0 < ("\n\nThe valid languages are as follows:\n\n`" : String).length := by
          decide
        omega
      omega
    simp [buildErrorMessages, addErr, alookup, aupdate, enrich, hne]
  · intro errs L
    have h := messagesAt_build_aux errs [] L
    simp only [buildErrorMessages]
    rw [h]
    simp [messagesAt, alookup]

/-- Witness for C7's amended theorem at concrete distinct comments on
line 3 with no enrichment. -/
theorem c7_merge_rule_witness :
    buildErrorMessages [⟨3, "a", none, none, "m1"⟩, ⟨3, "b", none, none, "m2"⟩] =
      [(3, ⟨"a" ++ "\n\n" ++ "b", ["m1", "m2"]⟩)] :=
  c7_merge_rule.1 3 "a" "m1" "b" "m2" (by decide)

/-- An observable action of one validation run.  `post` is one
`add_comment` call for a schema/JSON comment at a line; `dupePost` is
one dedup-cycling posting loop for a duplicate-key comment with its
ordered candidate lines.  In this orchestration model a posting is
recorded and assumed delivered; the HTTP-level failure handling of
`add_comment` is modelled separately below. -/
inductive Ev
  | post (file : String) (line : Nat) (body : String)
  | dupePost (file : String) (key : String) (lines : List Nat) (body : String)
deriving DecidableEq

/-- The per-file input of one iteration of `main`'s loop, with the
results of the external libraries at the model boundary: `jsonError`
is `some lineno` when `json.load` raises `JSONDecodeError` at that
1-based line; `schemaErrors` are the validator's raw errors with their
resolved lines and comments; `searchTerms` and `groups` are the values
extracted by `jsonpath_ng` from the parsed document at
`$..titles..searchTerm` and `$..variants[*].group`; `rawLines` is the
file text split on newlines. -/
structure FileEntry where
  name : String
  jsonError : Option Nat
  schemaErrors : List RawErr
  searchTerms : List String
  groups : List String
  rawLines : List String

/-- The comment body posted for invalid JSON (lines 253-261). -/
def invalidJsonBody (lineno : Nat) : String :=
  "### :gear: Automated review comment\n\nInvalid JSON found on or before line (" ++
  toString lineno ++
  "). Fix the error to continue.\n\nThere might be more invalid JSON in this file, but only " ++
  "one line can be checked for at a time. To speed up error checking, try " ++
  "an [online JSON validator](https://jsonlint.com/), or use an IDE that " ++
  "can lint JSON like [Visual Studio code](https://code.visualstudio.com/) " ++
  "to find errors before updating your PR."

/-- Python `str` of a list of strings (as printed into the validation
comment at line 394; embedded quoting inside the items is not
modelled). -/
def pyListRepr (xs : List String) : String :=
  "[" ++ String.intercalate ", " (xs.map (fun s => "\x27" ++ s ++ "\x27")) ++ "]"

/-- The comment body posted for one line's schema-validation failures
(lines 387-395). -/
def validationComment (e : Entry) : String :=
  "### :gear: Automated review comment\n\nThis line doesn\x27t follow the " ++
  "[clone list schema](https://raw.githubusercontent.com/unexpectedpanda/retool-clonelists-metadata/refs/heads/main/scripts/clone-list-schema.json)." ++
  "\n\nHere\x27s the comment from that part of the schema:\n\n" ++
  "> " ++ replaceAll "\n\n" "\n>\n>" e.comment ++
  "\n\nHere\x27s the validation error:\n\n" ++
  "> " ++ pyListRepr e.errors

/-- The duplicate-searchTerm comment body (lines 434-439). -/
def searchTermDupeBody (name : String) (lines : List Nat) : String :=
  "### :gear: Automated review comment\n\nFound the search term `" ++ name ++
  "` multiple times on the following lines:\n\n" ++
  String.intercalate "\n" (lines.map (fun x => "* " ++ toString x)) ++
  "\n\nSearch terms for `titles` should only be associated with one `group`, " ++
  "and not be repeated within that `group`."

/-- The duplicate-group comment body (lines 493-498). -/
def groupDupeBody (name : String) (lines : List Nat) : String :=
  "### :gear: Automated review comment\n\nFound the group `" ++ name ++
  "` multiple times on the following lines:\n\n" ++
  String.intercalate "\n" (lines.map (fun x => "* " ++ toString x)) ++
  "\n\nThere should only be one instance of a `group` name in a `variants` array."

/-- The body of `main`'s loop for one successfully parsed file: build
the `error_messages` dict, post one comment per entry, run both
duplicate scans, post one dedup-cycled comment per duplicate group,
and report whether the file is clean (`not error_messages and not
group_dupes and not searchterm_dupes`, line 524). -/
def fileEvents (f : FileEntry) : List Ev × Bool :=
  let em := buildErrorMessages f.schemaErrors
  let sd := lineScan (dupesOf f.searchTerms) searchTermLiteral f.rawLines
  let gd := lineScan (dupesOf f.groups) groupLiteral f.rawLines
  (em.map (fun p => Ev.post f.name p.1 (validationComment p.2))
    ++ sd.map (fun p => Ev.dupePost f.name p.1 p.2 (searchTermDupeBody p.1 p.2))
    ++ gd.map (fun p => Ev.dupePost f.name p.1 p.2 (groupDupeBody p.1 p.2)),
   em.isEmpty && gd.isEmpty && sd.isEmpty)

/-- `main`'s file loop (lines 230-530): skip `hash.json`; on a JSON
decode error post the invalid-JSON comment at the parser's failure
line and exit the whole process with status 1; otherwise process the
file and fold its clean flag into `test_succeeded`; after the loop
exit 1 when any file was unclean, else return (exit status 0). -/
def runFiles : List FileEntry → Bool → List Ev × Nat
  | [], ok => ([], if ok then 0 else 1)
  | f :: rest, ok =>
    if f.name = "hash.json" then runFiles rest ok
    else
      match f.jsonError with
      | some lineno => ([Ev.post f.name lineno (invalidJsonBody lineno)], 1)
      | none =>
        let r := fileEvents f
        let r2 := runFiles rest (ok && r.2)
        (r.1 ++ r2.1, r2.2)

/-- One whole run of `main`: restrict the changed-file list to paths
containing `clonelists` (lines 205, 226) and process them in order,
starting with `test_succeeded = True`. -/
def runMain (files : List FileEntry) : List Ev × Nat :=
  runFiles (files.filter (fun f => containsSub f.name "clonelists")) true

theorem dupesOf_nodup (values : List String) (h : values.Nodup) : dupesOf values = [] := by
  apply dupesGo_done values [] []
  · intro d hd
    simp at hd
  · intro w _
    exact Or.inr ⟨List.not_mem_nil w, List.nodup_iff_count_le_one.mp h w⟩

theorem lineScanGo_nil_dupes (mk : String → String) (lines : List String) :
    ∀ (k : Nat) (acc : List (String × List Nat)),
    lineScanGo [] mk k lines acc = acc := by
  induction lines with
  | nil => intro k acc; rfl
  | cons l rest ih =>
    intro k acc
    rw [lineScanGo]
    exact ih (k+1) acc

theorem lineScan_nil_dupes (mk : String → String) (lines : List String) :
    lineScan [] mk lines = [] :=
  lineScanGo_nil_dupes mk lines 1 []

theorem fileEvents_clean (f : FileEntry)
    (h1 : f.schemaErrors = []) (h2 : f.searchTerms.Nodup) (h3 : f.groups.Nodup) :
    fileEvents f = ([], true) := by
  have he : buildErrorMessages f.schemaErrors = [] := by rw [h1]; rfl
  have hs : lineScan (dupesOf f.searchTerms) searchTermLiteral f.rawLines = [] := by
    rw [dupesOf_nodup _ h2]
    exact lineScan_nil_dupes _ _
  have hg : lineScan (dupesOf f.groups) groupLiteral f.rawLines = [] := by
    rw [dupesOf_nodup _ h3]
    exact lineScan_nil_dupes _ _
  rw [fileEvents]
  rw [he, hs, hg]
  rfl

theorem runFiles_clean : ∀ (files : List FileEntry),
    (∀ f ∈ files,
      f.jsonError = none ∧ f.schemaErrors = [] ∧ f.searchTerms.Nodup ∧ f.groups.Nodup) →
    runFiles files true = ([], 0) := by
  intro files
  induction files with
  | nil => intro _; rfl
  | cons f rest ih =>
    intro h
    obtain ⟨hj, hs, hst, hg⟩ := h f (List.mem_cons_self f rest)
    have hrest := ih (fun g hg2 => h g (List.mem_cons_of_mem f hg2))
    rw [runFiles]
    by_cases hn : f.name = "hash.json"
    · rw [if_pos hn]
      exact hrest
    · rw [if_neg hn, hj]
      simp only []
      rw [fileEvents_clean f hs hst hg]
      simp [hrest]

/-- C1: when every target file parses as JSON, has no schema
violations, and has no duplicated searchTerm or group values, the run
produces no error-message entries and no duplicate groups for any
file, posts nothing, and the process exits with status 0. -/
theorem c1_clean_run (files : List FileEntry)
    (h : ∀ f ∈ files,
      f.jsonError = none ∧ f.schemaErrors = [] ∧ f.searchTerms.Nodup ∧ f.groups.Nodup) :
    runMain files = ([], 0) ∧
    ∀ f ∈ files, buildErrorMessages f.schemaErrors = [] ∧
      lineScan (dupesOf f.searchTerms) searchTermLiteral f.rawLines = [] ∧
      lineScan (dupesOf f.groups) groupLiteral f.rawLines = [] := by
  constructor
  · rw [runMain]
    apply runFiles_clean
    intro f hf
    exact h f (List.mem_filter.mp hf).1
  · intro f hf
    obtain ⟨hj, hs, hst, hg⟩ := h f hf
    refine ⟨by rw [hs]; rfl, ?_, ?_⟩
    · rw [dupesOf_nodup _ hst]
      exact lineScan_nil_dupes _ _
    · rw [dupesOf_nodup _ hg]
      exact lineScan_nil_dupes _ _

/-- Witness for C1 on a concrete clean file. -/
theorem c1_clean_run_witness :
    runMain [⟨"clonelists/a.json", none, [], ["A", "B"], ["G"], ["x"]⟩] = ([], 0) ∧
    ∀ f ∈ [(⟨"clonelists/a.json", none, [], ["A", "B"], ["G"], ["x"]⟩ : FileEntry)],
      buildErrorMessages f.schemaErrors = [] ∧
      lineScan (dupesOf f.searchTerms) searchTermLiteral f.rawLines = [] ∧
      lineScan (dupesOf f.groups) groupLiteral f.rawLines = [] :=
  c1_clean_run _ (by
    intro f hf
    rw [List.mem_singleton] at hf
    rw [hf]
    refine ⟨rfl, rfl, by decide, by decide⟩)

/-- C2, counterexample.  The claim states that after posting the
invalid-JSON comment the run continues with the remaining target
files.  In the code (line 274) `sys.exit(1)` follows the comment
immediately: with a malformed first file and a second file carrying a
schema error, the run stops after the single invalid-JSON post —
whereas the second file, processed on its own, would have produced a
validation-comment post.  So the remaining files are not processed. -/
theorem c2_invalid_json_counterexample :
    runMain [⟨"clonelists/a.json", some 5, [], [], [], []⟩,
             ⟨"clonelists/b.json", none, [⟨3, "c", none, none, "m"⟩], [], [], []⟩] =
      ([Ev.post "clonelists/a.json" 5 (invalidJsonBody 5)], 1) ∧
    runMain [⟨"clonelists/b.json", none, [⟨3, "c", none, none, "m"⟩], [], [], []⟩] =
      ([Ev.post "clonelists/b.json" 3 (validationComment ⟨"c", ["m"]⟩)], 1) :=
  ⟨rfl, rfl⟩

/-- C2, amended.  For a target file whose text is not valid JSON, the
run posts exactly one comment reporting invalid JSON on or before the
parser's failure line and then terminates the whole process with exit
status 1; schema validation and duplicate detection are skipped for
that file, and the remaining target files of the run are not
processed. -/
theorem c2_invalid_json_amended (f : FileEntry) (rest : List FileEntry) (lineno : Nat)
    (h1 : containsSub f.name "clonelists" = true)
    (h2 : f.name ≠ "hash.json")
    (h3 : f.jsonError = some lineno) :
    runMain (f :: rest) = ([Ev.post f.name lineno (invalidJsonBody lineno)], 1) := by
  rw [runMain, List.filter_cons]
  simp only [h1, if_true]
  rw [runFiles, if_neg h2, h3]

/-- Witness for C2's amended theorem. -/
theorem c2_invalid_json_amended_witness :
    runMain [⟨"clonelists/a.json", some 5, [], [], [], []⟩] =
      ([Ev.post "clonelists/a.json" 5 (invalidJsonBody 5)], 1) :=
  c2_invalid_json_amended ⟨"clonelists/a.json", some 5, [], [], [], []⟩ [] 5
    (by decide) (by decide) rfl

/-- C10: a document that parses, satisfies the schema, and whose
extracted searchTerm values contain `Foo` twice — so the structural
pass does detect a duplicate — but whose raw text formats the pairs as
`"searchTerm" : "Foo"` (a space before the colon), so that no line
contains the expected literal `{"searchTerm": "Foo"`, produces no
duplicate comment and is reported clean: the run posts nothing and
exits 0.  The pass/fail verdict itself (line 524 checks the textual
scan's dicts, not the structural `dupes` sets) depends on the
approximate textual line scan. -/
theorem c10_textual_scan_verdict :
    dupesOf ["Foo", "Foo"] = ["Foo"] ∧
    runMain [⟨"clonelists/metadata.json", none, [], ["Foo", "Foo"], [],
      ["  \"searchTerm\" : \"Foo\",", "  \"searchTerm\" : \"Foo\""]⟩] = ([], 0) :=
  ⟨rfl, rfl⟩

/-- One observable event of the annotation client: an HTTP POST with
the line it targets and the status it receives, a backoff delay in
seconds, a process exit, or the end of the supplied response script
(a model artifact). -/
inductive CEv
  | req (line : Nat) (status : Nat)
  | delay (secs : Nat)
  | exited (code : Nat)
  | scriptEnd
deriving DecidableEq

/-- How a call of `add_comment` finishes: a normal return with the
response status and the remaining response script, a process exit via
`sys.exit`, or running out of scripted responses. -/
inductive COut
  | ret (status : Nat) (rest : List Nat)
  | exited (code : Nat)
  | outOfScript
deriving DecidableEq

/-- `progressive_timeout` of `request_retry` (line 167). -/
def progressiveTimeout : List Int := [0, 60, 300, -1]

theorem progressiveTimeout_big (t : Nat) (h : 2 < t) :
    progressiveTimeout.getD t (-1) = -1 := by
  obtain ⟨k, rfl⟩ : ∃ k, t = k + 3 := ⟨t - 3, by omega⟩
  cases k with
  | zero => rfl
  | succ k2 =>
    apply List.getD_eq_default
    simp [progressiveTimeout]

mutual
/-- `add_comment` (lines 19-151) over a script of response status
codes: the next script element is the status of the POST it issues.
With `dupe_check=True` the status is returned before
`raise_for_status` (line 70), so no status-based error handling runs.
Otherwise `raise_for_status` raises only for 400-599; 401/404 exit the
process (lines 98-103); 422 on a nonzero line falls back through
`request_retry` to a file-scoped comment (lines 104-122); 429 and 5xx
re-enter `request_retry` (lines 123-146); any other 4xx falls through
the handler and the original status is returned (line 151). -/
def addComment (t : Nat) (line : Nat) (dupe : Bool) (script : List Nat) :
    List CEv × COut :=
  match script with
  | [] => ([CEv.scriptEnd], COut.outOfScript)
  | s :: rest =>
    if dupe then ([CEv.req line s], COut.ret s rest)
    else if s < 400 ∨ 600 ≤ s then ([CEv.req line s], COut.ret s rest)
    else if s = 401 ∨ s = 404 then ([CEv.req line s, CEv.exited 1], COut.exited 1)
    else if s = 422 then
      if line = 0 then ([CEv.req line s], COut.ret s rest)
      else
        match requestRetry t 0 rest with
        | (evs, COut.ret _ sc) => (CEv.req line s :: evs, COut.ret s sc)
        | (evs, o) => (CEv.req line s :: evs, o)
    else if s = 429 ∨ (500 ≤ s ∧ s < 600) then
      match requestRetry t line rest with
      | (evs, COut.ret _ sc) => (CEv.req line s :: evs, COut.ret s sc)
      | (evs, o) => (CEv.req line s :: evs, o)
    else ([CEv.req line s], COut.ret s rest)
termination_by (4 - t) * 2 + 1
decreasing_by
  all_goals omega

/-- `request_retry` (lines 154-189) over a response script.  Its
`while` loop compares a locally constructed mock response (status 418,
never updated) against 200, so it never exits normally: each iteration
checks the schedule, sleeps, increments the attempt index, calls
`add_comment` with `dupe_check` defaulted to `False`, discards the
result, and iterates; index 3 (`-1` in the schedule) exits the
process. -/
def requestRetry (t : Nat) (line : Nat) (script : List Nat) : List CEv × COut :=
  if h : progressiveTimeout.getD t (-1) = -1 then
    ([CEv.exited 1], COut.exited 1)
  else
    match addComment (t+1) line false script with
    | (evs, COut.ret _ sc) =>
      match requestRetry (t+1) line sc with
      | (evs2, o) => (CEv.delay (progressiveTimeout.getD t (-1)).toNat :: evs ++ evs2, o)
    | (evs, o) => (CEv.delay (progressiveTimeout.getD t (-1)).toNat :: evs, o)
termination_by (4 - t) * 2
decreasing_by
  all_goals
    have ht : t ≤ 2 := by
      by_contra hc
      exact h (progressiveTimeout_big t (by omega))
    omega
end

/-- The dedup-cycling loop of `main` (lines 445-463 and 504-522): try
each candidate line in order with `dupe_check=True`; a 422 response
moves on to the next candidate, any other response stops the loop.
Returns the trace and the remaining response script. -/
def dedupCycle (script : List Nat) : List Nat → List CEv × List Nat
  | [] => ([], script)
  | l :: rest =>
    match addComment 0 l true script with
    | (evs, COut.ret s sc) =>
      if s = 422 then
        match dedupCycle sc rest with
        | (evs2, sc2) => (evs ++ evs2, sc2)
      else (evs, sc)
    | (evs, _) => (evs, [])

theorem addComment_dupe (t line s : Nat) (rest : List Nat) :
    addComment t line true (s :: rest) = ([CEv.req line s], COut.ret s rest) := by
  simp [addComment]

/-- C3: the claim says three consecutive 429 responses followed by a
200 give exactly the delays 0s, 60s, 300s and then success.  The
delays and the final successful request do occur, and no request
follows the 200 — but the process then exits with status 1 anyway
(first conjunct), exactly as it does when the fourth response is
another failure (second conjunct): `request_retry` discards
`add_comment`'s result and its `while` loop tests a mock response that
is never updated, so success after a retry is indistinguishable from
retry exhaustion. -/
theorem c3_retry_schedule_bug :
    addComment 0 7 false [429, 429, 429, 200] =
      ([CEv.req 7 429, CEv.delay 0, CEv.req 7 429, CEv.delay 60, CEv.req 7 429,
        CEv.delay 300, CEv.req 7 200, CEv.exited 1], COut.exited 1) ∧
    addComment 0 7 false [429, 429, 429, 429] =
      ([CEv.req 7 429, CEv.delay 0, CEv.req 7 429, CEv.delay 60, CEv.req 7 429,
        CEv.delay 300, CEv.req 7 429, CEv.exited 1], COut.exited 1) := by
  constructor <;> simp [addComment, requestRetry, progressiveTimeout]

/-- C4: the claim says a 422 on a nonzero line triggers exactly one
file-scoped follow-up and, when that also returns 422, no further
request and no process termination.  In the code the fallback goes
through `request_retry`, whose broken loop keeps re-posting: with
`line=12` and responses 422, 422, 422, 422 the client issues the
line-scoped request, then three file-scoped requests after delays of
0s, 60s and 300s, and then exits the process with status 1. -/
theorem c4_fallback_422_bug :
    addComment 0 12 false [422, 422, 422, 422] =
      ([CEv.req 12 422, CEv.delay 0, CEv.req 0 422, CEv.delay 60, CEv.req 0 422,
        CEv.delay 300, CEv.req 0 422, CEv.exited 1], COut.exited 1) := by
  simp [addComment, requestRetry, progressiveTimeout]

/-- C5, counterexample.  The claim includes dedup-cycling attempts in
the 401/404-is-fatal rule, but with `dupe_check=True` `add_comment`
returns the status before `raise_for_status` (line 70): a 401 received
during dedup cycling is returned to the caller and the process does
not terminate (no exit event, a normal return). -/
theorem c5_fatal_status_counterexample :
    addComment 0 7 true [401] = ([CEv.req 7 401], COut.ret 401 []) :=
  addComment_dupe 0 7 401 []

/-- C5, amended.  For non-dedup annotation posting attempts an HTTP
401 or 404 response terminates the whole process immediately with a
non-zero exit status; a dedup-cycling attempt (`dupe_check=True`)
instead returns whatever status it receives, without terminating, and
the cycling loop merely stops there when the status is not 422. -/
theorem c5_fatal_status_amended :
    (∀ (line : Nat) (rest : List Nat),
      addComment 0 line false (401 :: rest) =
        ([CEv.req line 401, CEv.exited 1], COut.exited 1))
    ∧ (∀ (line : Nat) (rest : List Nat),
      addComment 0 line false (404 :: rest) =
        ([CEv.req line 404, CEv.exited 1], COut.exited 1))
    ∧ (∀ (line s : Nat) (rest : List Nat),
      addComment 0 line true (s :: rest) = ([CEv.req line s], COut.ret s rest)) := by
  refine ⟨?_, ?_, ?_⟩
  · intro line rest
    simp [addComment]
  · intro line rest
    simp [addComment]
  · intro line s rest
    exact addComment_dupe 0 line s rest

/-- C6: dedup cycling posts to the candidate lines in order; it moves
to the next candidate exactly on a 422 response, and the attempted
requests are the longest all-422 prefix of the candidate/response
pairing plus the first non-422 response if one occurs, whether that
response is a success or a different failure; no candidate after that
point is attempted. -/
theorem c6_dedup_cycling (cands : List Nat) : ∀ (script : List Nat),
    cands.length ≤ script.length →
    (dedupCycle script cands).1 =
      ((cands.zip script).takeWhile (fun p => p.2 == 422)).map (fun p => CEv.req p.1 p.2)
      ++ (((cands.zip script).dropWhile (fun p => p.2 == 422)).take 1).map
          (fun p => CEv.req p.1 p.2) := by
  induction cands with
  | nil => intro script _; simp [dedupCycle]
  | cons l rest ih =>
    intro script h
    cases script with
    | nil => simp at h
    | cons s ss =>
      rw [dedupCycle, addComment_dupe]
      by_cases hs : s = 422
      · subst hs
        simp only [List.zip_cons_cons, List.takeWhile_cons, List.dropWhile_cons]
        simp only [beq_self_eq_true, if_true]
        rw [ih ss (by simpa using h)]
        simp
      · have hb : ((s == 422) : Bool) = false := beq_eq_false_iff_ne.mpr hs
        simp only [List.zip_cons_cons, List.takeWhile_cons, List.dropWhile_cons, hb]
        simp [hs]

/-- Witness for C6: candidates 5, 9, 11 with responses 422, 200, 77 —
the 422 moves to the next candidate, the 200 stops the cycle, line 11
is never attempted. -/
theorem c6_dedup_cycling_witness :
    (dedupCycle [422, 200, 77] [5, 9, 11]).1 =
      (([5, 9, 11].zip [422, 200, 77]).takeWhile (fun p => p.2 == 422)).map
        (fun p => CEv.req p.1 p.2)
      ++ ((([5, 9, 11].zip [422, 200, 77]).dropWhile (fun p => p.2 == 422)).take 1).map
          (fun p => CEv.req p.1 p.2) :=
  c6_dedup_cycling [5, 9, 11] [422, 200, 77] (by decide)
